import Mathlib

/-!
# Verification of the scoctoloc incremental association pipeline

Shallow embedding of the core pipeline of `src/scocto/app.py` (pick intake,
delayed scheduling, trigger windows, relocation retry loop, event
deduplication and publishing), together with proofs about the claims of the
specification.

Modelling conventions:
* SeisComP times, time spans and depths are rationals (seiscomp times carry
  microsecond resolution; no claim depends on the representation).
* The external collaborators (the PyOcto association engine, the SeisComP
  locator, the wgs84 distance routine `seiscomp.math.delazi_wgs84`, the
  `seiscomp.datamodel.Origin.Create` public-id factory and the stream
  whitelist glob matcher) are parameters of the embedding: they are black
  boxes outside this repository, consumed through a fixed contract.
* Python exceptions (TypeError on comparing `MyEvent` objects,
  AttributeError on `None.matches`) are modelled with `Except Unit`.
* Python `list.sort` is modelled by `List.insertionSort` (a sorted
  permutation; no settled claim depends on the order among equal keys), and
  Python string comparison by code-point-lexicographic comparison of the
  character lists.
-/

/-- A SeisComP pick, restricted to the attributes the pipeline reads:
public id, stream identity (network, station, location codes), pick
(arrival) time `pick.time().value()`, creation time
`pick.creationInfo().creationTime()` and author. -/
structure Pick where
  publicID : String
  net : String
  sta : String
  loc : String
  time : ℚ
  creationTime : ℚ
  author : String
deriving DecidableEq

/-- A SeisComP origin, restricted to the attributes the pipeline reads:
public id, method id, the pick ids referenced by its arrivals (in arrival
order, `origin.arrival(i).pickID()`), origin time and depth.
`creationTime` is `none` until the publisher stamps a `CreationInfo`. -/
structure Origin where
  publicID : String
  methodID : String
  pickIDs : List String
  time : ℚ
  depth : ℚ
  creationTime : Option ℚ := none
deriving DecidableEq

/-- Stand-in value for lookups that the Python code performs only on
nonempty histories (used as a `getLastD` default, never reached on the
paths the code exercises). -/
def emptyOrigin : Origin :=
  { publicID := "", methodID := "", pickIDs := [], time := 0, depth := 0 }

/-- `scocto.util.originReferencesPick`: whether one of the arrivals of the
origin references the pick. -/
def originReferencesPick (origin : Origin) (pick : Pick) : Bool :=
  origin.pickIDs.any (fun pid => pid = pick.publicID)

/-- Code-point-lexicographic comparison of character lists: the order
Python uses to compare strings in `list.sort()`. -/
def charListLe : List Char → List Char → Bool
  | [], _ => true
  | _ :: _, [] => false
  | c :: cs, d :: ds =>
      if c < d then true
      else if d < c then false
      else charListLe cs ds

/-- Python string comparison `s <= t`, on the underlying character lists. -/
def strLeR (s t : String) : Prop := charListLe s.data t.data = true

instance : DecidableRel strLeR := fun s t =>
  inferInstanceAs (Decidable (charListLe s.data t.data = true))

lemma charListLe_total : ∀ a b, charListLe a b = true ∨ charListLe b a = true
  | [], _ => by left; rfl
  | _ :: _, [] => by right; rfl
  | c :: cs, d :: ds => by
      rcases lt_trichotomy c d with h | h | h
      · left; simp [charListLe, h]
      · subst h
        rcases charListLe_total cs ds with ih | ih
        · left; simpa [charListLe] using ih
        · right; simpa [charListLe] using ih
      · right; simp [charListLe, h]

lemma charListLe_trans :
    ∀ a b c, charListLe a b = true → charListLe b c = true → charListLe a c = true
  | [], _, _ => by intro _ _; rfl
  | _ :: _, [], _ => by intro h _; simp [charListLe] at h
  | _ :: _, _ :: _, [] => by intro _ h; simp [charListLe] at h
  | a :: as, b :: bs, c :: cs => by
      intro hab hbc
      by_cases h1 : a < b
      · by_cases h2 : b < c
        · simp [charListLe, lt_trans h1 h2]
        · by_cases h3 : c < b
          · simp [charListLe, h2, h3] at hbc
          · have : b = c := le_antisymm (not_lt.mp h3) (not_lt.mp h2)
            subst this
            simp [charListLe, h1]
      · by_cases h1' : b < a
        · simp [charListLe, h1, h1'] at hab
        · have : a = b := le_antisymm (not_lt.mp h1') (not_lt.mp h1)
          subst this
          by_cases h2 : a < c
          · simp [charListLe, h2]
          · by_cases h3 : c < a
            · simp [charListLe, h2, h3] at hbc
            · have : a = c := le_antisymm (not_lt.mp h3) (not_lt.mp h2)
              subst this
              simp only [charListLe, lt_irrefl, if_false] at hab hbc ⊢
              exact charListLe_trans as bs cs hab hbc

lemma charListLe_antisymm :
    ∀ a b, charListLe a b = true → charListLe b a = true → a = b
  | [], [] => by intro _ _; rfl
  | [], _ :: _ => by intro _ h; simp [charListLe] at h
  | _ :: _, [] => by intro h _; simp [charListLe] at h
  | a :: as, b :: bs => by
      intro hab hba
      by_cases h1 : a < b
      · simp [charListLe, h1, lt_asymm h1] at hba
      · by_cases h2 : b < a
        · simp [charListLe, h1, h2] at hab
        · have : a = b := le_antisymm (not_lt.mp h2) (not_lt.mp h1)
          subst this
          simp only [charListLe, lt_irrefl, if_false] at hab hba
          rw [charListLe_antisymm as bs hab hba]

instance : IsTotal String strLeR :=
  ⟨fun s t => charListLe_total s.data t.data⟩

instance : IsTrans String strLeR :=
  ⟨fun s t u => charListLe_trans s.data t.data u.data⟩

instance : IsAntisymm String strLeR :=
  ⟨fun s t h h' => String.ext (charListLe_antisymm s.data t.data h h')⟩

/-- The sorted copy of an origin's referenced pick ids
(`pick_ids_a.sort()` in `compareOrigins`). -/
def sortedPickIDs (o : Origin) : List String :=
  List.insertionSort strLeR o.pickIDs

/-- The `common_pick_count` loop of `compareOrigins`: how many entries of
`a` occur in `b`. -/
def commonPickCount (a b : List String) : Nat :=
  (a.filter (fun pid => decide (pid ∈ b))).length

/-- `compareOrigins` from `app.py` (the copy in `util.py` is identical):
compare origin `a` and `b` in terms of referenced picks.  Returns `1`
(improvement), `0` or `-1` (no improvement). -/
def compareOrigins (a b : Origin) : Int :=
  if sortedPickIDs a = sortedPickIDs b then 0
  else if commonPickCount (sortedPickIDs a) (sortedPickIDs b) = 0 then -1
  else if commonPickCount (sortedPickIDs a) (sortedPickIDs b) = (sortedPickIDs a).length then
    (if (sortedPickIDs b).length > (sortedPickIDs a).length then 1 else 0)
  else if (sortedPickIDs b).length > (sortedPickIDs a).length then 1
  else if (sortedPickIDs b).length < (sortedPickIDs a).length then -1
  else -1

section CompareOriginsFacts

lemma sortedPickIDs_perm (o : Origin) : List.Perm (sortedPickIDs o) o.pickIDs :=
  List.perm_insertionSort _ _

lemma sortedPickIDs_length (o : Origin) :
    (sortedPickIDs o).length = o.pickIDs.length :=
  (sortedPickIDs_perm o).length_eq

lemma mem_sortedPickIDs {x : String} {o : Origin} :
    x ∈ sortedPickIDs o ↔ x ∈ o.pickIDs :=
  (sortedPickIDs_perm o).mem_iff

lemma sortedPickIDs_sorted (o : Origin) :
    (sortedPickIDs o).Sorted strLeR :=
  List.sorted_insertionSort _ _

lemma sortedPickIDs_eq_iff {a b : Origin} :
    sortedPickIDs a = sortedPickIDs b ↔ List.Perm a.pickIDs b.pickIDs := by
  constructor
  · intro h
    exact (sortedPickIDs_perm a).symm.trans (h ▸ sortedPickIDs_perm b)
  · intro h
    exact List.eq_of_perm_of_sorted
      (((sortedPickIDs_perm a).trans h).trans (sortedPickIDs_perm b).symm)
      (sortedPickIDs_sorted a) (sortedPickIDs_sorted b)

lemma commonPickCount_eq_zero_iff {a b : List String} :
    commonPickCount a b = 0 ↔ ∀ x ∈ a, x ∉ b := by
  unfold commonPickCount
  rw [List.length_eq_zero, List.filter_eq_nil_iff]
  simp

end CompareOriginsFacts

example : compareOrigins
    { emptyOrigin with pickIDs := ["p1", "p2"] }
    { emptyOrigin with pickIDs := ["p2", "p1", "p3"] } = 1 := by decide

example : compareOrigins
    { emptyOrigin with pickIDs := ["p1", "p2"] }
    { emptyOrigin with pickIDs := ["p2", "p3"] } = -1 := by decide

example : compareOrigins
    { emptyOrigin with pickIDs := ["p1", "p2"] }
    { emptyOrigin with pickIDs := ["p2", "p1"] } = 0 := by decide

lemma toFinset_inter_nonempty_of_common_ne_zero {a b : Origin}
    (h : commonPickCount (sortedPickIDs a) (sortedPickIDs b) ≠ 0) :
    (a.pickIDs.toFinset ∩ b.pickIDs.toFinset).Nonempty := by
  obtain ⟨x, hxa, hxb⟩ : ∃ x ∈ sortedPickIDs a, x ∈ sortedPickIDs b := by
    by_contra hc
    push_neg at hc
    exact h (commonPickCount_eq_zero_iff.mpr hc)
  exact ⟨x, Finset.mem_inter.mpr
    ⟨List.mem_toFinset.mpr (mem_sortedPickIDs.mp hxa),
     List.mem_toFinset.mpr (mem_sortedPickIDs.mp hxb)⟩⟩

lemma toFinset_card_lt_iff {a b : Origin}
    (ha : a.pickIDs.Nodup) (hb : b.pickIDs.Nodup) :
    a.pickIDs.toFinset.card < b.pickIDs.toFinset.card ↔
      (sortedPickIDs b).length > (sortedPickIDs a).length := by
  rw [List.toFinset_card_of_nodup ha, List.toFinset_card_of_nodup hb,
    sortedPickIDs_length, sortedPickIDs_length]

/-- C2: `compareOrigins` returns a positive result (improvement) iff the
two referenced-pick-identifier sets share at least one identifier and the
new origin has strictly more picks than the old one; identical sets,
disjoint sets, strictly fewer picks and equal cardinality with
non-identical, non-containing sets all yield a non-improvement result. -/
theorem compareOrigins_improvement_iff (a b : Origin)
    (ha : a.pickIDs.Nodup) (hb : b.pickIDs.Nodup) :
    0 < compareOrigins a b ↔
      ((a.pickIDs.toFinset ∩ b.pickIDs.toFinset).Nonempty ∧
        a.pickIDs.toFinset.card < b.pickIDs.toFinset.card) := by
  unfold compareOrigins
  split_ifs with h1 h2 h3 h4 h5 h6
  · -- sorted pick id lists identical: result 0, and the cardinalities agree
    have hperm := sortedPickIDs_eq_iff.mp h1
    simp only [lt_self_iff_false, false_iff, not_and]
    intro _ hlt
    rw [List.toFinset_card_of_nodup ha, List.toFinset_card_of_nodup hb,
      hperm.length_eq] at hlt
    exact absurd hlt (lt_irrefl _)
  · -- no common pick: result -1
    constructor
    · intro h; exact absurd h (by decide)
    · rintro ⟨⟨x, hx⟩, -⟩
      obtain ⟨hxa, hxb⟩ := Finset.mem_inter.mp hx
      exact absurd (mem_sortedPickIDs.mpr (List.mem_toFinset.mp hxb))
        (commonPickCount_eq_zero_iff.mp h2 x
          (mem_sortedPickIDs.mpr (List.mem_toFinset.mp hxa)))
  · -- a's picks all contained in b and b strictly larger: improvement
    simp only [show ((0 : Int) < 1) = True by simp, true_iff]
    exact ⟨toFinset_inter_nonempty_of_common_ne_zero h2,
      (toFinset_card_lt_iff ha hb).mpr h4⟩
  · -- contained with equal length: result 0
    constructor
    · intro h; exact absurd h (by decide)
    · rintro ⟨-, hlt⟩
      exact absurd ((toFinset_card_lt_iff ha hb).mp hlt) h4
  · -- partial overlap, b strictly larger: improvement
    simp only [show ((0 : Int) < 1) = True by simp, true_iff]
    exact ⟨toFinset_inter_nonempty_of_common_ne_zero h2,
      (toFinset_card_lt_iff ha hb).mpr h5⟩
  · -- partial overlap, b strictly smaller: result -1
    constructor
    · intro h; exact absurd h (by decide)
    · rintro ⟨-, hlt⟩
      exact absurd ((toFinset_card_lt_iff ha hb).mp hlt) h5
  · -- equal cardinality, non-identical, non-containing: anomaly, result -1
    constructor
    · intro h; exact absurd h (by decide)
    · rintro ⟨-, hlt⟩
      exact absurd ((toFinset_card_lt_iff ha hb).mp hlt) h5

/-- Witness for C2 at concrete origins with nodup pick sets. -/
theorem compareOrigins_improvement_iff_witness :
    ({ emptyOrigin with pickIDs := ["p1", "p2"] } : Origin).pickIDs.Nodup ∧
    ({ emptyOrigin with pickIDs := ["p2", "p1", "p3"] } : Origin).pickIDs.Nodup ∧
    0 < compareOrigins { emptyOrigin with pickIDs := ["p1", "p2"] }
      { emptyOrigin with pickIDs := ["p2", "p1", "p3"] } :=
  ⟨by decide, by decide,
    (compareOrigins_improvement_iff _ _ (by decide) (by decide)).mpr
      ⟨⟨"p1", by decide⟩, by decide⟩⟩

/-- `MyEvent` from `app.py`: per-method ordered origin history plus the set
of pick ids referenced by any of its origins.  The Python class stores the
picks as a dict `pickID -> Pick`; only the keys are ever read (membership
tests), so the embedding keeps the key list.  The unused fields
`preferredOrigin` and `lastPublished` (only read in a `pass` branch) are
omitted. -/
structure MyEvent where
  origins : String → List Origin
  picks : List String

/-- `MyEvent.__init__`: empty history, no picks. -/
def MyEvent.empty : MyEvent :=
  { origins := fun _ => [], picks := [] }

/-- `MyEvent.set_origin`: append the origin to the history of its method
and fold its referenced pick ids into the event's pick-key set (dict
assignment: existing keys keep their position, new keys are appended). -/
def MyEvent.set_origin (ev : MyEvent) (origin : Origin) : MyEvent :=
  { origins := fun m =>
      if m = origin.methodID then ev.origins m ++ [origin] else ev.origins m,
    picks := origin.pickIDs.foldl
      (fun ps pid => if pid ∈ ps then ps else ps ++ [pid]) ev.picks }

/-- `origin_time_separation` from `app.py`. -/
def origin_time_separation (origin1 origin2 : Origin) : ℚ :=
  |origin2.time - origin1.time|

/-- Models Python `sorted(matching_events)[-1]` for a nonempty list of
`(common_pick_count, event)` tuples whose second components are mutually
incomparable `MyEvent` instances: CPython tuple comparison compares the
counts first and falls back to comparing the events exactly when two
counts are equal, raising TypeError (`MyEvent` defines no ordering); when
all counts are distinct the events are never compared and the last element
of the ascending sort is the pair with the (unique) maximal count. -/
def pySortedLast {α : Type} (x : Nat × α) (xs : List (Nat × α)) :
    Except Unit (Nat × α) :=
  if ((x :: xs).map Prod.fst).Nodup then
    .ok (xs.foldl (fun best y => if best.1 < y.1 then y else best) x)
  else .error ()

/-- The candidate-collection loop of `MyEventList.find_matching_event`:
walk the event list (with its position `i`), keep the events whose most
recent origin for the same method is within 30 s and 100 km of the new
origin and which share at least one pick id with it, paired with the
common-pick count.  The 3-D distance `origin_distance_km` delegates to the
external `seiscomp.math.delazi_wgs84`, so it is the parameter `distKm`. -/
def matchingCandidates (distKm : Origin → Origin → ℚ) (origin : Origin) :
    Nat → List MyEvent → List (Nat × Nat × MyEvent)
  | _, [] => []
  | i, event :: rest =>
      let tail := matchingCandidates distKm origin (i + 1) rest
      if event.origins origin.methodID = [] then tail
      else
        let last := (event.origins origin.methodID).getLastD emptyOrigin
        if origin_time_separation last origin < 30 ∧ distKm last origin < 100 then
          let c := (origin.pickIDs.filter (fun pid => decide (pid ∈ event.picks))).length
          if c ≠ 0 then (c, i, event) :: tail else tail
        else tail

/-- `MyEventList.find_matching_event`: returns the position and value of
the matching event with the largest common-pick count, `none` when no
event matches, and a TypeError (`Except.error`) when two candidates tie on
the common-pick count (see `pySortedLast`). -/
def find_matching_event (distKm : Origin → Origin → ℚ)
    (events : List MyEvent) (origin : Origin) :
    Except Unit (Option (Nat × MyEvent)) :=
  match matchingCandidates distKm origin 0 events with
  | [] => .ok none
  | x :: xs =>
      match pySortedLast x xs with
      | .error e => .error e
      | .ok best => .ok (some best.2)

/-- The event-deduplication loop at the heart of `App.processPick`
(app.py lines 918-948): for each origin, look for a matching event; on a
match append the origin to that event's per-method history only when
`compareOrigins` reports an improvement, otherwise put the origin on the
discard list; without a match append a fresh event holding the origin.
Returns the updated event list and the discarded origins in encounter
order. -/
def recordOrigins (distKm : Origin → Origin → ℚ) (events : List MyEvent) :
    List Origin → Except Unit (List MyEvent × List Origin)
  | [] => .ok (events, [])
  | origin :: rest =>
      match find_matching_event distKm events origin with
      | .error e => .error e
      | .ok (some (i, matching_event)) =>
          let last := (matching_event.origins origin.methodID).getLastD emptyOrigin
          if 0 < compareOrigins last origin then
            recordOrigins distKm (events.set i (matching_event.set_origin origin)) rest
          else
            match recordOrigins distKm events rest with
            | .error e => .error e
            | .ok (evs, disc) => .ok (evs, origin :: disc)
      | .ok none =>
          recordOrigins distKm (events ++ [MyEvent.empty.set_origin origin]) rest

/-- The `while True` retry loop of `App.relocate` (app.py lines 531-566),
with the locator invocation abstracted as `reloc : depth constraint ↦
relocated origin or failure` (a `RuntimeError` from the locator is caught
and treated as failure).  The fuel argument counts loop iterations; a
`none` result means the fuel ran out before the loop exited.  The returned
list records the depth constraints passed to the locator, in order.
`minDepth` is the hard-coded 1 km floor. -/
def relocLoop (reloc : Option ℚ → Option Origin) :
    Nat → Option ℚ → Option (Option Origin × List (Option ℚ))
  | 0, _ => none
  | fuel + 1, fixedDepth =>
      match reloc fixedDepth with
      | none => some (none, [fixedDepth])
      | some relocated =>
          if relocated.depth < 1 ∧ fixedDepth = Option.none then
            match relocLoop reloc fuel (some 1) with
            | none => none
            | some (res, calls) => some (res, fixedDepth :: calls)
          else some (some relocated, [fixedDepth])

/-- `App.relocate` for one origin: run the retry loop from the free-depth
state.  Fuel 2 is enough for the loop to exit (proved in the C7 theorem);
the `none` fallback is unreachable. -/
def relocate (reloc : Option ℚ → Origin → Option Origin) (origin : Origin) :
    Option Origin :=
  match relocLoop (fun fd => reloc fd origin) 2 none with
  | some (res, _) => res
  | none => none

/-- The configuration the embedded pipeline reads (`App.__init__`,
`initConfiguration`, `validateParameters`): processing delay, minimum pick
count, whether raw PyOcto origins are kept, allowed pick authors, the
optional stream whitelist (`setupStreamWhitelist` leaves `None` when the
`--whitelist` option is absent; the glob matching of
`scocto.whitelist.StreamWhitelist.matches` is the black-box predicate),
and the associator-side station list `stream_nsl` and author whitelist
(`Associator.accepts` in octo.py). -/
structure Config where
  pick_delay : ℚ
  min_num_p_picks : Nat
  want_raw_pyocto_locations : Bool
  pick_authors : List String
  whitelist : Option (Pick → Bool)
  stream_nsl : List (String × String × String)
  accepted_authors : List String
  use_pick_time : Bool

/-- The external collaborators of one run: the PyOcto association engine
(`Associator.process`), the SeisComP locator (`loc.relocate` under a depth
constraint), the `seiscomp.datamodel.Origin.Create().publicID()` factory
(threaded through a state so successive calls may differ), and the wgs84
3-D distance of `origin_distance_km`. -/
structure Collab where
  associate : List Pick → List Origin
  reloc : Option ℚ → Origin → Option Origin
  mint : Nat → String × Nat
  distKm : Origin → Origin → ℚ

/-- The mutable state of `App` that the pipeline touches: the pick map
`self.picks` (insertion-ordered dict), the time-sorted pick list
`self.sortedPicks`, the pending queue `self.pick_queue`, the playback
clock `self.playbackTime`, the event catalog `self.event_list`, the
accumulated playback output `self.ep` and the mint state of the public-id
factory. -/
structure AppState where
  picks : List (String × Pick)
  sortedPicks : List Pick
  pick_queue : List Pick
  playbackTime : Option ℚ
  event_list : List MyEvent
  published : List Origin
  mintState : Nat

/-- The state of `App` before any pick is handled. -/
def initialState : AppState :=
  { picks := [], sortedPicks := [], pick_queue := [], playbackTime := none,
    event_list := [], published := [], mintState := 0 }

/-- Python dict assignment `d[k] = v`: update the existing key in place or
append a new entry. -/
def dictInsert (d : List (String × Pick)) (k : String) (v : Pick) :
    List (String × Pick) :=
  if d.any (fun kv => kv.1 = k) then
    d.map (fun kv => if kv.1 = k then (k, v) else kv)
  else d ++ [(k, v)]

/-- `App.storePick` in playback mode: store the pick under its public id,
append it to `sortedPicks` and re-sort by pick time, append it to the
pending queue, and advance the playback clock to the maximum creation
time seen so far. -/
def storePick (st : AppState) (pick : Pick) : AppState :=
  { picks := dictInsert st.picks pick.publicID pick,
    sortedPicks := List.insertionSort
      (fun a b : Pick => a.time ≤ b.time) (st.sortedPicks ++ [pick]),
    pick_queue := st.pick_queue ++ [pick],
    playbackTime := some (match st.playbackTime with
      | none => pick.creationTime
      | some t => max t pick.creationTime),
    event_list := st.event_list,
    published := st.published,
    mintState := st.mintState }

/-- `App.checkPickAuthor`: the pick's author must equal one of the allowed
authors. -/
def checkPickAuthor (cfg : Config) (pick : Pick) : Bool :=
  cfg.pick_authors.any (fun allowed => pick.author = allowed)

/-- `App.checkStation`: match the pick's stream against the whitelist.
When no whitelist was configured, `self.whitelist` is `None` and the call
`self.whitelist.matches(...)` raises AttributeError. -/
def checkStation (cfg : Config) (pick : Pick) : Except Unit Bool :=
  match cfg.whitelist with
  | none => .error ()
  | some wl => .ok (wl pick)

/-- `Associator.accepts` from octo.py: the pick's (net, sta, loc) must be
among the configured sensors and, when the author whitelist is nonempty,
the author must be on it. -/
def Associator.accepts (cfg : Config) (pick : Pick) : Bool :=
  if (pick.net, pick.sta, pick.loc) ∉ cfg.stream_nsl then false
  else if !cfg.accepted_authors.isEmpty ∧ pick.author ∉ cfg.accepted_authors then false
  else true

/-- `App.checkPick`: station check, then author check, then the
associator's acceptance predicate, in that order. -/
def checkPick (cfg : Config) (pick : Pick) : Except Unit Bool :=
  match checkStation cfg pick with
  | .error e => .error e
  | .ok s =>
      if !s then .ok false
      else if !checkPickAuthor cfg pick then .ok false
      else if !(Associator.accepts cfg pick) then .ok false
      else .ok true

/-- Modelled from the spec: section 4.1 says the checks run "in the fixed
order author → station-whitelist → station-whitelist (again,
engine-side)".  This definition follows the spec's words (author first);
it is compared against `checkPick`, which embeds the code. -/
def checkPickSpecOrder (cfg : Config) (pick : Pick) : Except Unit Bool :=
  if !checkPickAuthor cfg pick then .ok false
  else
    match checkStation cfg pick with
    | .error e => .error e
    | .ok s =>
        if !s then .ok false
        else if !(Associator.accepts cfg pick) then .ok false
        else .ok true

/-- The trigger window of `App.processPick` (app.py lines 874-879): the
stored picks whose time lies strictly between `new_pick.time - dt` and
`new_pick.time + dt` with `dt = 120 + pick_delay`. -/
def triggerWindow (cfg : Config) (st : AppState) (new_pick : Pick) : List Pick :=
  st.sortedPicks.filter (fun p =>
    decide (new_pick.time - (120 + cfg.pick_delay) < p.time ∧
      p.time < new_pick.time + (120 + cfg.pick_delay)))

/-- `App.relocateOrigins`: relocate every origin, append the successful
relocations, and unless raw PyOcto locations were requested drop every
origin whose method id is "PyOcto". -/
def relocateOrigins (cfg : Config) (collab : Collab) (origins : List Origin) :
    List Origin :=
  let all := origins ++ origins.filterMap (relocate collab.reloc)
  if cfg.want_raw_pyocto_locations then all
  else all.filter (fun o => o.methodID ≠ "PyOcto")

/-- Python `str.replace` for the single-character pattern "/" used at
app.py line 952 (`publicID().replace("/", "/PyOcto/")`): every slash is
replaced. -/
def replaceSlashes (s : String) (rep : String) : String :=
  String.mk (s.data.foldr
    (fun c acc => if c = '/' then rep.data ++ acc else c :: acc) [])

/-- The publishing loop of `App.processPick` (app.py lines 950-960):
origins whose method id is "PyOcto" get a fresh public id minted by
`seiscomp.datamodel.Origin.Create().publicID()` with "/" replaced by
"/PyOcto/", and every origin is stamped with a `CreationInfo` carrying the
current (playback) time. -/
def publishOrigins (collab : Collab) (now : ℚ) (mintState : Nat)
    (origins : List Origin) : List Origin × Nat :=
  origins.foldl
    (fun acc o =>
      let step : Origin × Nat :=
        if o.methodID = "PyOcto" then
          let m := collab.mint acc.2
          ({ o with publicID := replaceSlashes m.1 "/PyOcto/" }, m.2)
        else (o, acc.2)
      (acc.1 ++ [{ step.1 with creationTime := some now }], step.2))
    ([], mintState)

/-- `App.processPick` in playback mode: build the trigger window, stop if
it has fewer picks than `min_num_p_picks`, run the association
collaborator, keep only origins referencing the trigger pick, relocate,
deduplicate against the event catalog, drop non-improvements, stamp and
append the survivors to the output.  The messaging send of online mode is
not reached in playback. -/
def processPick (cfg : Config) (collab : Collab) (st : AppState)
    (new_pick : Pick) : Except Unit AppState :=
  let picks := triggerWindow cfg st new_pick
  if picks.length < cfg.min_num_p_picks then .ok st
  else
    let origins := collab.associate picks
    if origins.isEmpty then .ok st
    else
      let origins2 := origins.filter (fun o => originReferencesPick o new_pick)
      let origins3 := relocateOrigins cfg collab origins2
      match recordOrigins collab.distKm st.event_list origins3 with
      | .error e => .error e
      | .ok (events, discarded) =>
          let surviving := origins3.filter (fun o => decide (o ∉ discarded))
          match st.playbackTime with
          | none => .error ()
          | some now =>
              let pub := publishOrigins collab now st.mintState surviving
              .ok { st with event_list := events,
                            published := st.published ++ pub.1,
                            mintState := pub.2 }

/-- The release loop of `App.processPickQueue`: walk the pending queue in
order, skip the picks with `now - pickTime < delay` and process the rest,
returning the resulting state and the processed picks in queue order.
Python iterates over `self.pick_queue` itself; `processPick` never touches
the queue, so iterating over the initial queue value is faithful. -/
def processQueueLoop (cfg : Config) (collab : Collab) (now : ℚ) :
    AppState → List Pick → Except Unit (AppState × List Pick)
  | st, [] => .ok (st, [])
  | st, pick :: rest =>
      if now - pick.time < cfg.pick_delay then
        processQueueLoop cfg collab now st rest
      else
        match processPick cfg collab st pick with
        | .error e => .error e
        | .ok st2 =>
            match processQueueLoop cfg collab now st2 rest with
            | .error e => .error e
            | .ok (st3, processed) => .ok (st3, pick :: processed)

/-- `App.processPickQueue` at a given clock value: run the release loop,
then remove each processed pick from the pending queue (Python
`list.remove`, first occurrence). -/
def processPickQueue (cfg : Config) (collab : Collab) (now : ℚ)
    (st : AppState) : Except Unit AppState :=
  match processQueueLoop cfg collab now st st.pick_queue with
  | .error e => .error e
  | .ok (st2, processed) =>
      .ok { st2 with pick_queue := processed.foldl List.erase st2.pick_queue }

/-- `App.processPickQueue` with the playback clock `App.now`: the maximum
pick creation time seen so far.  Before any pick was stored the clock is
`None`; the loop body would then raise a TypeError, but with an empty
queue the loop never runs. -/
def processPickQueuePlayback (cfg : Config) (collab : Collab)
    (st : AppState) : Except Unit AppState :=
  match st.playbackTime with
  | none => if st.pick_queue.isEmpty then .ok st else .error ()
  | some now => processPickQueue cfg collab now st

/-- `App.addPick`: check the pick, store it, then flush the pending
queue. -/
def addPick (cfg : Config) (collab : Collab) (st : AppState) (pick : Pick) :
    Except Unit AppState :=
  match checkPick cfg pick with
  | .error e => .error e
  | .ok ok =>
      if !ok then .ok st
      else processPickQueuePlayback cfg collab (storePick st pick)

/-- The playback ordering key (`--use-pick-time` selects the pick time,
the default is the creation time). -/
def objectTime (cfg : Config) (pick : Pick) : ℚ :=
  if cfg.use_pick_time then pick.time else pick.creationTime

/-- The intake filter of `App.loadInputData`: the Python list
comprehension `[obj for obj in objects.values() if self.checkPick(obj)]`,
with the exception of `checkPick` propagating. -/
def loadFilter (cfg : Config) : List Pick → Except Unit (List Pick)
  | [] => .ok []
  | p :: ps =>
      match checkPick cfg p with
      | .error e => .error e
      | .ok b =>
          match loadFilter cfg ps with
          | .error e => .error e
          | .ok rest => .ok (if b then p :: rest else rest)

/-- The feeding loop of `App.runPlayback`: `addObject` (hence `addPick`)
for every buffered pick, in order. -/
def feedPicks (cfg : Config) (collab : Collab) :
    AppState → List Pick → Except Unit AppState
  | st, [] => .ok st
  | st, p :: ps =>
      match addPick cfg collab st p with
      | .error e => .error e
      | .ok st2 => feedPicks cfg collab st2 ps

/-- `App.runPlayback` (with `App.run` and `prepareOfflineRun` around it):
filter the input picks through `checkPick`, abort when nothing is left
("No objects read!", no output is written), sort by the playback ordering
key, feed every pick through `addObject`, flush the remaining queue, and
return the accumulated published origins. -/
def runPlayback (cfg : Config) (collab : Collab) (input : List Pick) :
    Except Unit (List Origin) :=
  match loadFilter cfg input with
  | .error e => .error e
  | .ok buf0 =>
      if buf0.isEmpty then .error ()
      else
        let buf := List.insertionSort
          (fun a b : Pick => objectTime cfg a ≤ objectTime cfg b) buf0
        match feedPicks cfg collab initialState buf with
        | .error e => .error e
        | .ok st =>
            match processPickQueuePlayback cfg collab st with
            | .error e => .error e
            | .ok st2 => .ok st2.published

lemma relocLoop_fixedDepth (reloc : Option ℚ → Option Origin) (fuel : Nat) :
    relocLoop reloc (fuel + 1) (some 1) =
      match reloc (some 1) with
      | none => some (none, [some 1])
      | some r => some (some r, [some 1]) := by
  cases h : reloc (some 1) with
  | none => simp [relocLoop, h]
  | some r => simp [relocLoop, h]

/-- C7: the relocation retry loop invokes the locator at most twice; the
second invocation (with the depth fixed to the 1 km floor) happens exactly
when the free-depth invocation succeeded with a depth below the floor, and
after the fixed-depth invocation the loop ends whether it succeeded or
failed.  Fuel 2 is enough (the loop terminates), and more fuel changes
nothing. -/
theorem relocate_at_most_two_invocations (reloc : Option ℚ → Option Origin) :
    (relocLoop reloc 2 none).isSome = true ∧
    (∀ fuel res calls, relocLoop reloc fuel none = some (res, calls) →
      calls.length ≤ 2 ∧
      (calls.length = 2 ↔ ∃ r, reloc none = some r ∧ r.depth < 1) ∧
      (calls.length = 2 → calls = [none, some 1]) ∧
      calls.head? = some none) ∧
    (∀ fuel, 2 ≤ fuel → relocLoop reloc fuel none = relocLoop reloc 2 none) := by
  cases hfree : reloc none with
  | none =>
      refine ⟨by simp [relocLoop, hfree], ?_, ?_⟩
      · intro fuel res calls heq
        match fuel with
        | 0 => simp [relocLoop] at heq
        | f + 1 =>
            simp [relocLoop, hfree] at heq
            obtain ⟨-, hc⟩ := heq
            subst hc
            refine ⟨by simp, ?_, by simp, by simp⟩
            simp [hfree]
      · intro fuel hfuel
        match fuel, hfuel with
        | f + 2, _ => simp [relocLoop, hfree]
  | some r =>
      by_cases hdep : r.depth < 1
      · refine ⟨?_, ?_, ?_⟩
        · cases h2 : reloc (some 1) <;> simp [relocLoop, hfree, hdep, h2]
        · intro fuel res calls heq
          match fuel with
          | 0 => simp [relocLoop] at heq
          | 1 =>
              -- the inner loop has no fuel left; no result is produced
              simp [relocLoop, hfree, hdep] at heq
          | f + 2 =>
              cases h2 : reloc (some 1) with
              | none =>
                  simp [relocLoop, hfree, hdep, h2] at heq
                  obtain ⟨-, hc⟩ := heq
                  subst hc
                  exact ⟨by simp, by simp [hfree, hdep], by simp, by simp⟩
              | some r2 =>
                  simp [relocLoop, hfree, hdep, h2] at heq
                  obtain ⟨-, hc⟩ := heq
                  subst hc
                  exact ⟨by simp, by simp [hfree, hdep], by simp, by simp⟩
        · intro fuel hfuel
          match fuel, hfuel with
          | f + 2, _ => cases h2 : reloc (some 1) <;> simp [relocLoop, hfree, hdep, h2]
      · refine ⟨by simp [relocLoop, hfree, hdep], ?_, ?_⟩
        · intro fuel res calls heq
          match fuel with
          | 0 => simp [relocLoop] at heq
          | f + 1 =>
              simp [relocLoop, hfree, hdep] at heq
              obtain ⟨-, hc⟩ := heq
              subst hc
              exact ⟨by simp, by simp [hfree, hdep], by simp, by simp⟩
        · intro fuel hfuel
          match fuel, hfuel with
          | f + 2, _ => simp [relocLoop, hfree, hdep]

/-- A locator stub: free depth relocates to depth 0, fixed depth to the
requested floor. -/
def relocStub : Option ℚ → Option Origin
  | none => some { emptyOrigin with depth := 0 }
  | some d => some { emptyOrigin with depth := d }

/-- Witness for C7: with `relocStub` the loop makes exactly the two
invocations [free, fixed at 1 km]. -/
theorem relocate_at_most_two_invocations_witness :
    relocLoop relocStub 2 none =
      some (some { emptyOrigin with depth := 1 }, [none, some 1]) ∧
    [(none : Option ℚ), some 1].length ≤ 2 :=
  ⟨by decide,
    ((relocate_at_most_two_invocations relocStub).2.1 2
      (some { emptyOrigin with depth := 1 }) [none, some 1] (by decide)).1⟩

attribute [local semireducible] Rat.add Rat.sub Rat.mul Rat.inv

/-- A configuration with the `App.__init__` defaults relevant here:
delay 0 for compact examples, minimum pick count 4, no whitelist
configured, one allowed pick author. -/
def baseConfig : Config :=
  { pick_delay := 0, min_num_p_picks := 4, want_raw_pyocto_locations := false,
    pick_authors := ["scautopick"], whitelist := none, stream_nsl := [],
    accepted_authors := [], use_pick_time := false }

/-- A pick from an allowed author. -/
def basePick : Pick :=
  { publicID := "pick1", net := "N", sta := "S", loc := "",
    time := 0, creationTime := 0, author := "scautopick" }

/-- C5 (amended): the trigger window contains exactly the stored picks
whose time is strictly within `120 + pick_delay` of the trigger pick's
time, and it contains the trigger pick itself whenever that pick is
stored and the delay is nonnegative. -/
theorem triggerWindow_strict_characterization (cfg : Config) (st : AppState)
    (new_pick p : Pick) :
    (p ∈ triggerWindow cfg st new_pick ↔
      p ∈ st.sortedPicks ∧ |p.time - new_pick.time| < 120 + cfg.pick_delay) ∧
    (0 ≤ cfg.pick_delay → new_pick ∈ st.sortedPicks →
      new_pick ∈ triggerWindow cfg st new_pick) := by
  have hiff : ∀ q : Pick, q ∈ triggerWindow cfg st new_pick ↔
      q ∈ st.sortedPicks ∧ |q.time - new_pick.time| < 120 + cfg.pick_delay := by
    intro q
    unfold triggerWindow
    rw [List.mem_filter]
    constructor
    · rintro ⟨hmem, hcond⟩
      rw [decide_eq_true_eq] at hcond
      exact ⟨hmem, abs_sub_lt_iff.mpr ⟨by linarith [hcond.2], by linarith [hcond.1]⟩⟩
    · rintro ⟨hmem, habs⟩
      obtain ⟨h1, h2⟩ := abs_sub_lt_iff.mp habs
      exact ⟨hmem, decide_eq_true_eq.mpr ⟨by linarith, by linarith⟩⟩
  refine ⟨hiff p, fun hd hmem => (hiff new_pick).mpr ⟨hmem, ?_⟩⟩
  rw [sub_self, abs_zero]
  linarith

/-- Witness for C5's amended theorem: with a nonnegative delay a stored
trigger pick lies in its own window. -/
theorem triggerWindow_strict_characterization_witness :
    (0 : ℚ) ≤ baseConfig.pick_delay ∧
    basePick ∈ ({ initialState with sortedPicks := [basePick] } : AppState).sortedPicks ∧
    basePick ∈ triggerWindow baseConfig
      { initialState with sortedPicks := [basePick] } basePick :=
  ⟨by decide, by decide,
    (triggerWindow_strict_characterization baseConfig
      { initialState with sortedPicks := [basePick] } basePick basePick).2
      (by decide) (by decide)⟩

/-- A pick stored exactly at the window boundary `120 + pick_delay`. -/
def boundaryPick : Pick := { basePick with publicID := "pick2", time := 120 }

/-- A store holding the trigger pick and the boundary pick. -/
def boundaryState : AppState :=
  { initialState with sortedPicks := [basePick, boundaryPick] }

/-- Counterexample for C5 as claimed: a stored pick at exactly distance
`W = 120 + pick_delay` from the trigger pick's time is NOT in the trigger
window (the code uses strict inequalities), although the claim includes
it. -/
theorem triggerWindow_boundary_excluded :
    boundaryPick ∈ boundaryState.sortedPicks ∧
    |boundaryPick.time - basePick.time| ≤ 120 + baseConfig.pick_delay ∧
    boundaryPick ∉ triggerWindow baseConfig boundaryState basePick := by
  decide

/-- Two distinct pick objects carrying the same public id ("dup"), as when
an updated pick is re-sent. -/
def duplicatePickA : Pick := { basePick with publicID := "dup", time := 5 }

/-- The re-sent pick with the same public id and a revised time. -/
def duplicatePickB : Pick := { basePick with publicID := "dup", time := 7 }

/-- C8 (code behaviour at the failing input): after storing two picks
with the same public id, the keyed map `self.picks` holds one entry but
`self.sortedPicks` holds both, and the trigger-window query returns two
picks with the same identifier. -/
theorem storePick_duplicate_id_duplicates_sortedPicks :
    ((storePick (storePick initialState duplicatePickA) duplicatePickB).picks.filter
        (fun kv => decide (kv.1 = "dup"))).length = 1 ∧
    ((storePick (storePick initialState duplicatePickA) duplicatePickB).sortedPicks.filter
        (fun p => decide (p.publicID = "dup"))).length = 2 ∧
    ((triggerWindow baseConfig
        (storePick (storePick initialState duplicatePickA) duplicatePickB)
        duplicatePickB).filter
        (fun p => decide (p.publicID = "dup"))).length = 2 := by
  decide

/-- A pick whose author is not on the allow-list. -/
def badAuthorPick : Pick := { basePick with author := "someoneelse" }

/-- Counterexample for C9 as claimed: with no whitelist configured and a
disallowed author, the code (station check first) raises in the station
check, while the claimed order (author check first) would return False
from the author check without touching the whitelist. -/
theorem checkPick_order_mismatch :
    checkPick baseConfig badAuthorPick = .error () ∧
    checkPickSpecOrder baseConfig badAuthorPick = .ok false ∧
    checkPickAuthor baseConfig badAuthorPick = false :=
  ⟨rfl, rfl, rfl⟩

/-- C9 (amended): `checkPick` evaluates the station-whitelist check first
(observable: with no whitelist configured it raises there, whatever the
other checks would say), then the author check, then the associator's
acceptance predicate; acceptance requires all three, and a pick that does
not pass never reaches `storePick`. -/
theorem checkPick_station_first_characterization (cfg : Config) (pick : Pick) :
    (cfg.whitelist = none → checkPick cfg pick = .error ()) ∧
    (∀ wl, cfg.whitelist = some wl →
      checkPick cfg pick =
        .ok (wl pick && checkPickAuthor cfg pick && Associator.accepts cfg pick)) ∧
    (∀ collab st, checkPick cfg pick ≠ .ok true →
      addPick cfg collab st pick = .ok st ∨ addPick cfg collab st pick = .error ()) := by
  refine ⟨?_, ?_, ?_⟩
  · intro h
    simp [checkPick, checkStation, h]
  · intro wl h
    cases hwl : wl pick <;>
      cases ha : checkPickAuthor cfg pick <;>
        cases hb : Associator.accepts cfg pick <;>
          simp [checkPick, checkStation, h, hwl, ha, hb]
  · intro collab st hne
    unfold addPick
    cases hcp : checkPick cfg pick with
    | error e => right; rfl
    | ok b =>
        cases b with
        | true => exact absurd hcp hne
        | false => left; rfl

/-- A configuration with a whitelist that accepts everything and a sensor
list containing `basePick`'s stream. -/
def wlConfig : Config :=
  { baseConfig with
    whitelist := some (fun _ => true)
    stream_nsl := [("N", "S", "")]
    min_num_p_picks := 1 }

/-- Witness for C9's amended theorem at a configured whitelist. -/
theorem checkPick_station_first_characterization_witness :
    checkPick wlConfig basePick =
      .ok ((fun _ => true : Pick → Bool) basePick &&
        checkPickAuthor wlConfig basePick && Associator.accepts wlConfig basePick) :=
  (checkPick_station_first_characterization wlConfig basePick).2.1
    (fun _ => true) rfl

/-- C10: with no whitelist configured (`self.whitelist is None`), every
`checkPick` call (and hence every `addPick` call) raises in the station
check instead of returning a boolean; with a configured whitelist
`checkPick` always returns a boolean. -/
theorem checkPick_requires_whitelist (cfg : Config) (pick : Pick) :
    (cfg.whitelist = none →
      checkPick cfg pick = .error () ∧
      ∀ collab st, addPick cfg collab st pick = .error ()) ∧
    (∀ wl, cfg.whitelist = some wl → ∃ b, checkPick cfg pick = .ok b) := by
  constructor
  · intro h
    have hcp : checkPick cfg pick = .error () := by
      simp [checkPick, checkStation, h]
    refine ⟨hcp, fun collab st => ?_⟩
    unfold addPick
    rw [hcp]
  · intro wl h
    unfold checkPick checkStation
    rw [h]
    cases hwl : wl pick <;>
      cases ha : checkPickAuthor cfg pick <;>
        cases hb : Associator.accepts cfg pick <;> simp [hwl, ha, hb]

/-- Witness for C10 at the default configuration (no whitelist). -/
theorem checkPick_requires_whitelist_witness :
    checkPick baseConfig basePick = .error () ∧
    ∀ collab st, addPick baseConfig collab st basePick = .error () :=
  (checkPick_requires_whitelist baseConfig basePick).1 rfl

/-- Last recorded origin of the first catalog event (method "PyOcto",
referencing pick "pa"). -/
def tieOriginA : Origin :=
  { emptyOrigin with publicID := "oA", methodID := "PyOcto", pickIDs := ["pa"] }

/-- Last recorded origin of the second catalog event (referencing "pb"). -/
def tieOriginB : Origin :=
  { emptyOrigin with publicID := "oB", methodID := "PyOcto", pickIDs := ["pb"] }

/-- First catalog event: knows pick "pa". -/
def tieEventA : MyEvent :=
  { origins := fun m => if m = "PyOcto" then [tieOriginA] else [],
    picks := ["pa"] }

/-- Second catalog event: knows pick "pb". -/
def tieEventB : MyEvent :=
  { origins := fun m => if m = "PyOcto" then [tieOriginB] else [],
    picks := ["pb"] }

/-- A new origin sharing exactly one pick with each catalog event. -/
def tieNewOrigin : Origin :=
  { emptyOrigin with
    publicID := "oNew"
    methodID := "PyOcto"
    pickIDs := ["pa", "pb"] }

/-- A distance collaborator placing all origins at the same point (both
events pass the 30 s / 100 km gate). -/
def zeroDist : Origin → Origin → ℚ := fun _ _ => 0

/-- C4 (code behaviour at the failing input): with two candidate events of
equal common-pick count (here 1 and 1), `sorted(matching_events)[-1]`
compares the `(count, MyEvent)` tuples, falls back to `MyEvent < MyEvent`
and raises TypeError instead of returning a candidate. -/
theorem find_matching_event_tie_raises :
    find_matching_event zeroDist [tieEventA, tieEventB] tieNewOrigin =
      .error () := rfl

lemma processPick_pick_queue {cfg : Config} {collab : Collab} {st : AppState}
    {new_pick : Pick} {st' : AppState}
    (h : processPick cfg collab st new_pick = .ok st') :
    st'.pick_queue = st.pick_queue := by
  unfold processPick at h
  dsimp only at h
  split at h
  · cases h; rfl
  · split at h
    · cases h; rfl
    · split at h
      · simp at h
      · split at h
        · simp at h
        · cases h; rfl

lemma processQueueLoop_queue {cfg : Config} {collab : Collab} {now : ℚ} :
    ∀ {q : List Pick} {st st' : AppState} {processed : List Pick},
      processQueueLoop cfg collab now st q = .ok (st', processed) →
      st'.pick_queue = st.pick_queue := by
  intro q
  induction q with
  | nil => intro st st' processed h; cases h; rfl
  | cons p rest ih =>
      intro st st' processed h
      unfold processQueueLoop at h
      split at h
      · exact ih h
      · split at h
        · simp at h
        · rename_i st2 heq
          split at h
          · simp at h
          · rename_i st3 pr heq2
            cases h
            rw [ih heq2, processPick_pick_queue heq]

lemma processQueueLoop_processed {cfg : Config} {collab : Collab} {now : ℚ} :
    ∀ {q : List Pick} {st st' : AppState} {processed : List Pick},
      processQueueLoop cfg collab now st q = .ok (st', processed) →
      processed = q.filter (fun p => decide (cfg.pick_delay ≤ now - p.time)) := by
  intro q
  induction q with
  | nil => intro st st' processed h; cases h; rfl
  | cons p rest ih =>
      intro st st' processed h
      unfold processQueueLoop at h
      split at h
      · rename_i hdue
        rw [List.filter_cons_of_neg (by simpa using not_le.mpr hdue)]
        exact ih h
      · rename_i hdue
        split at h
        · simp at h
        · split at h
          · simp at h
          · rename_i st3 pr heq2
            cases h
            rw [List.filter_cons_of_pos (by simpa using not_lt.mp hdue)]
            rw [ih heq2]

lemma foldl_erase_cons {α : Type} [DecidableEq α] (a : α) :
    ∀ (L t : List α), (∀ x ∈ L, x ≠ a) →
      L.foldl List.erase (a :: t) = a :: L.foldl List.erase t := by
  intro L
  induction L with
  | nil => intro t _; rfl
  | cons x L' ih =>
      intro t hx
      have hxa : x ≠ a := hx x (by simp)
      simp only [List.foldl_cons]
      rw [List.erase_cons_tail (by simpa using (Ne.symm hxa))]
      exact ih _ (fun y hy => hx y (by simp [hy]))

lemma foldl_erase_filter {α : Type} [DecidableEq α] (p : α → Bool) :
    ∀ l : List α, (l.filter p).foldl List.erase l = l.filter (fun a => !(p a)) := by
  intro l
  induction l with
  | nil => rfl
  | cons a t ih =>
      cases hpa : p a with
      | true =>
          rw [List.filter_cons_of_pos hpa]
          simp only [List.foldl_cons, List.erase_cons_head]
          rw [ih, List.filter_cons_of_neg (by simp [hpa])]
      | false =>
          rw [List.filter_cons_of_neg (by simp [hpa])]
          rw [foldl_erase_cons a _ _ (fun x hx => by
            intro hxa
            subst hxa
            rw [List.mem_filter] at hx
            rw [hpa] at hx
            exact absurd hx.2 (by simp))]
          rw [ih, List.filter_cons_of_pos (by simp [hpa])]

lemma foldl_storePick_playbackTime :
    ∀ (ps : List Pick) (st : AppState) (t : ℚ), st.playbackTime = some t →
      (ps.foldl storePick st).playbackTime =
        some (ps.foldl (fun acc q => max acc q.creationTime) t) := by
  intro ps
  induction ps with
  | nil => intro st t h; exact h
  | cons p rest ih =>
      intro st t h
      simp only [List.foldl_cons]
      exact ih (storePick st p) (max t p.creationTime) (by
        simp only [storePick, h])

lemma le_foldl_max :
    ∀ (l : List ℚ) (t : ℚ),
      t ≤ l.foldl max t ∧ ∀ c ∈ l, c ≤ l.foldl max t := by
  intro l
  induction l with
  | nil => intro t; exact ⟨le_refl t, by simp⟩
  | cons c l' ih =>
      intro t
      obtain ⟨h1, h2⟩ := ih (max t c)
      refine ⟨le_trans (le_max_left t c) h1, ?_⟩
      intro d hd
      rcases List.mem_cons.mp hd with rfl | hd'
      · exact le_trans (le_max_right t d) h1
      · exact h2 d hd'

lemma foldl_max_mem :
    ∀ (l : List ℚ) (t : ℚ), l.foldl max t = t ∨ l.foldl max t ∈ l := by
  intro l
  induction l with
  | nil => intro t; left; rfl
  | cons c l' ih =>
      intro t
      rcases ih (max t c) with h | h
      · rcases max_choice t c with hm | hm
        · left; simp only [List.foldl_cons]; rw [h, hm]
        · right; simp only [List.foldl_cons]; rw [h, hm]; exact List.mem_cons_self c l'
      · right
        simp only [List.foldl_cons]
        exact List.mem_cons_of_mem c h

/-- C6: at a scheduler tick with clock value `now`, the release loop
processes exactly the queued picks with `now - time ≥ delay`, in queue
order (so a pick is never released while `now - t < delay`, and it is
released at the first tick at which `now - t ≥ delay` holds); the
remaining queue is exactly the not-yet-due picks; and in playback mode the
clock (`App.now`) after storing any nonempty sequence of picks is the
maximum pick creation time seen so far. -/
theorem processPickQueue_release_discipline (cfg : Config) (collab : Collab)
    (now : ℚ) (st stMid st2 : AppState) (processed : List Pick)
    (hloop : processQueueLoop cfg collab now st st.pick_queue = .ok (stMid, processed))
    (hq : processPickQueue cfg collab now st = .ok st2) :
    processed = st.pick_queue.filter (fun p => decide (cfg.pick_delay ≤ now - p.time)) ∧
    st2.pick_queue = st.pick_queue.filter (fun p => decide (now - p.time < cfg.pick_delay)) ∧
    (∀ ps : List Pick, ps ≠ [] →
      ∃ m, (ps.foldl storePick initialState).playbackTime = some m ∧
        m ∈ ps.map Pick.creationTime ∧ ∀ c ∈ ps.map Pick.creationTime, c ≤ m) := by
  have hproc := processQueueLoop_processed hloop
  have hqueue := processQueueLoop_queue hloop
  refine ⟨hproc, ?_, ?_⟩
  · unfold processPickQueue at hq
    rw [hloop] at hq
    cases hq
    show processed.foldl List.erase stMid.pick_queue = _
    rw [hqueue, hproc, foldl_erase_filter]
    apply List.filter_congr
    intro p _
    by_cases hp : cfg.pick_delay ≤ now - p.time
    · simp [hp, not_lt.mpr hp]
    · simp [hp, not_le.mp hp]
  · intro ps hps
    match ps, hps with
    | p :: rest, _ =>
        have h0 : (storePick initialState p).playbackTime = some p.creationTime := rfl
        have hfold := foldl_storePick_playbackTime rest (storePick initialState p)
          p.creationTime h0
        rw [show rest.foldl (fun acc q => max acc q.creationTime) p.creationTime =
            (rest.map Pick.creationTime).foldl max p.creationTime by
          rw [List.foldl_map]] at hfold
        refine ⟨(rest.map Pick.creationTime).foldl max p.creationTime, ?_, ?_, ?_⟩
        · simpa only [List.foldl_cons] using hfold
        · rcases foldl_max_mem (rest.map Pick.creationTime) p.creationTime with h | h
          · rw [h]; simp
          · simp only [List.map_cons, List.mem_cons]
            exact Or.inr h
        · intro c hc
          simp only [List.map_cons, List.mem_cons] at hc
          rcases hc with rfl | hc'
          · exact (le_foldl_max _ _).1
          · exact (le_foldl_max _ _).2 c hc'

/-- A collaborator bundle that never produces origins (enough for
queue-discipline witnesses). -/
def collabStub : Collab :=
  { associate := fun _ => [], reloc := fun _ _ => none,
    mint := fun n => ("", n), distKm := fun _ _ => 0 }

/-- A queued pick that is not yet due at clock value 100. -/
def latePick : Pick := { basePick with publicID := "late", time := 200 }

/-- A state with one due and one not-yet-due queued pick. -/
def queueState : AppState :=
  { initialState with
    pick_queue := [basePick, latePick]
    playbackTime := some 100 }

/-- Witness for C6 at a concrete queue: the due pick is released, the
late one stays queued. -/
theorem processPickQueue_release_discipline_witness :
    [basePick] = queueState.pick_queue.filter
      (fun p => decide (baseConfig.pick_delay ≤ 100 - p.time)) :=
  (processPickQueue_release_discipline baseConfig collabStub 100 queueState
    queueState { queueState with pick_queue := [latePick] } [basePick]
    (by rfl) (by rfl)).1

/-- A per-method origin history is "improving" when every successive pair
is an improvement in the sense of `compareOrigins`. -/
def improving (h : List Origin) : Prop :=
  h.Chain' (fun a b => 0 < compareOrigins a b)

/-- Every per-method history of the event is improving. -/
def EventInvariant (ev : MyEvent) : Prop :=
  ∀ m : String, improving (ev.origins m)

/-- Every event of the catalog satisfies the history invariant. -/
def EventListInvariant (evs : List MyEvent) : Prop :=
  ∀ ev ∈ evs, EventInvariant ev

lemma eventInvariant_empty_set (o : Origin) :
    EventInvariant (MyEvent.empty.set_origin o) := by
  intro m
  unfold MyEvent.set_origin MyEvent.empty improving
  dsimp only
  by_cases h : m = o.methodID
  · rw [if_pos h]
    exact List.chain'_singleton o
  · rw [if_neg h]
    exact List.chain'_nil

lemma eventInvariant_set_origin {ev : MyEvent} {o : Origin}
    (hev : EventInvariant ev)
    (himp : 0 < compareOrigins ((ev.origins o.methodID).getLastD emptyOrigin) o) :
    EventInvariant (ev.set_origin o) := by
  intro m
  unfold MyEvent.set_origin improving
  dsimp only
  by_cases h : m = o.methodID
  · rw [if_pos h]
    rw [List.chain'_append]
    refine ⟨hev m, List.chain'_singleton o, ?_⟩
    intro x hx y hy
    simp only [List.head?_cons, Option.mem_def, Option.some.injEq] at hy
    subst hy
    rw [Option.mem_def] at hx
    have hlast : (ev.origins o.methodID).getLastD emptyOrigin = x := by
      rw [← h, List.getLastD_eq_getLast?, hx]
      rfl
    rw [hlast] at himp
    exact himp
  · rw [if_neg h]
    exact hev m

lemma matchingCandidates_mem {distKm : Origin → Origin → ℚ} {origin : Origin} :
    ∀ {evs : List MyEvent} {k c i : Nat} {ev : MyEvent},
      (c, i, ev) ∈ matchingCandidates distKm origin k evs → ev ∈ evs := by
  intro evs
  induction evs with
  | nil => intro k c i ev h; simp [matchingCandidates] at h
  | cons e rest ih =>
      intro k c i ev h
      unfold matchingCandidates at h
      dsimp only at h
      split at h
      · exact List.mem_cons_of_mem e (ih h)
      · split at h
        · split at h
          · rcases List.mem_cons.mp h with heq | hmem
            · cases heq
              exact List.mem_cons_self e rest
            · exact List.mem_cons_of_mem e (ih hmem)
          · exact List.mem_cons_of_mem e (ih h)
        · exact List.mem_cons_of_mem e (ih h)

lemma foldl_maxByCount_mem {α : Type} :
    ∀ (xs : List (Nat × α)) (x : Nat × α),
      xs.foldl (fun best y => if best.1 < y.1 then y else best) x ∈ x :: xs := by
  intro xs
  induction xs with
  | nil => intro x; simp
  | cons y ys ih =>
      intro x
      simp only [List.foldl_cons]
      rcases List.mem_cons.mp (ih (if x.1 < y.1 then y else x)) with h' | h'
      · rw [h']
        by_cases hxy : x.1 < y.1
        · rw [if_pos hxy]
          exact List.mem_cons_of_mem x (List.mem_cons_self y ys)
        · rw [if_neg hxy]
          exact List.mem_cons_self x (y :: ys)
      · exact List.mem_cons_of_mem x (List.mem_cons_of_mem y h')

lemma pySortedLast_ok_mem {α : Type} {x : Nat × α} {xs : List (Nat × α)}
    {best : Nat × α} (h : pySortedLast x xs = .ok best) : best ∈ x :: xs := by
  unfold pySortedLast at h
  split at h
  · cases h
    exact foldl_maxByCount_mem xs x
  · simp at h

lemma find_matching_event_ok_mem {distKm : Origin → Origin → ℚ}
    {events : List MyEvent} {origin : Origin} {i : Nat} {ev : MyEvent}
    (h : find_matching_event distKm events origin = .ok (some (i, ev))) :
    ev ∈ events := by
  unfold find_matching_event at h
  split at h
  · simp at h
  · rename_i x xs heq
    split at h
    · simp at h
    · rename_i best heq2
      simp only [Except.ok.injEq, Option.some.injEq] at h
      obtain ⟨c, i', ev'⟩ := best
      simp only at h
      cases h
      have hmem : (c, i, ev) ∈ x :: xs := pySortedLast_ok_mem heq2
      rw [← heq] at hmem
      exact matchingCandidates_mem hmem

lemma recordOrigins_invariant {distKm : Origin → Origin → ℚ} :
    ∀ {os : List Origin} {events events' : List MyEvent} {disc : List Origin},
      EventListInvariant events →
      recordOrigins distKm events os = .ok (events', disc) →
      EventListInvariant events' := by
  intro os
  induction os with
  | nil =>
      intro evs evs' disc hinv h
      cases h
      exact hinv
  | cons o rest ih =>
      intro evs evs' disc hinv h
      unfold recordOrigins at h
      cases heq : find_matching_event distKm evs o with
      | error e => rw [heq] at h; simp at h
      | ok opt =>
          rw [heq] at h
          cases opt with
          | none =>
              dsimp only at h
              refine ih ?_ h
              intro ev' hev'
              rcases List.mem_append.mp hev' with hmem | hmem
              · exact hinv _ hmem
              · rw [List.mem_singleton] at hmem
                subst hmem
                exact eventInvariant_empty_set o
          | some pair =>
              obtain ⟨i, mev⟩ := pair
              dsimp only at h
              by_cases himp :
                  0 < compareOrigins ((mev.origins o.methodID).getLastD emptyOrigin) o
              · rw [if_pos himp] at h
                refine ih ?_ h
                intro ev' hev'
                rcases List.mem_or_eq_of_mem_set hev' with hmem | rfl
                · exact hinv _ hmem
                · exact eventInvariant_set_origin
                    (hinv _ (find_matching_event_ok_mem heq)) himp
              · rw [if_neg himp] at h
                cases heq2 : recordOrigins distKm evs rest with
                | error e => rw [heq2] at h; simp at h
                | ok pr =>
                    obtain ⟨evs2, disc2⟩ := pr
                    rw [heq2] at h
                    dsimp only at h
                    cases h
                    exact ih hinv heq2

lemma processPick_invariant {cfg : Config} {collab : Collab} {st : AppState}
    {new_pick : Pick} {st' : AppState}
    (hinv : EventListInvariant st.event_list)
    (h : processPick cfg collab st new_pick = .ok st') :
    EventListInvariant st'.event_list := by
  unfold processPick at h
  dsimp only at h
  split at h
  · cases h; exact hinv
  · split at h
    · cases h; exact hinv
    · split at h
      · simp at h
      · rename_i events discarded heq
        split at h
        · simp at h
        · cases h
          exact recordOrigins_invariant hinv heq

lemma processQueueLoop_invariant {cfg : Config} {collab : Collab} {now : ℚ} :
    ∀ {q : List Pick} {st st' : AppState} {processed : List Pick},
      EventListInvariant st.event_list →
      processQueueLoop cfg collab now st q = .ok (st', processed) →
      EventListInvariant st'.event_list := by
  intro q
  induction q with
  | nil => intro st st' processed hinv h; cases h; exact hinv
  | cons p rest ih =>
      intro st st' processed hinv h
      unfold processQueueLoop at h
      split at h
      · exact ih hinv h
      · split at h
        · simp at h
        · rename_i st2 heq
          split at h
          · simp at h
          · rename_i st3 pr heq2
            cases h
            exact ih (processPick_invariant hinv heq) heq2

lemma processPickQueuePlayback_invariant {cfg : Config} {collab : Collab}
    {st st' : AppState}
    (hinv : EventListInvariant st.event_list)
    (h : processPickQueuePlayback cfg collab st = .ok st') :
    EventListInvariant st'.event_list := by
  unfold processPickQueuePlayback at h
  split at h
  · split at h
    · cases h; exact hinv
    · simp at h
  · unfold processPickQueue at h
    split at h
    · simp at h
    · rename_i st2 processed heq
      cases h
      have h2 := processQueueLoop_invariant hinv heq
      exact h2

lemma addPick_invariant {cfg : Config} {collab : Collab} {st st' : AppState}
    {pick : Pick}
    (hinv : EventListInvariant st.event_list)
    (h : addPick cfg collab st pick = .ok st') :
    EventListInvariant st'.event_list := by
  unfold addPick at h
  split at h
  · simp at h
  · split at h
    · cases h; exact hinv
    · exact processPickQueuePlayback_invariant
        (show EventListInvariant (storePick st pick).event_list from hinv) h

lemma feedPicks_invariant {cfg : Config} {collab : Collab} :
    ∀ {ps : List Pick} {st st' : AppState},
      EventListInvariant st.event_list →
      feedPicks cfg collab st ps = .ok st' →
      EventListInvariant st'.event_list := by
  intro ps
  induction ps with
  | nil => intro st st' hinv h; cases h; exact hinv
  | cons p rest ih =>
      intro st st' hinv h
      unfold feedPicks at h
      split at h
      · simp at h
      · rename_i st2 heq
        exact ih (addPick_invariant hinv heq) h

/-- C1: the event deduplication of `processPick` only ever appends origins
to a per-method history when `compareOrigins` reports a strict
improvement over the history's last entry (and the first origin of a
fresh event's history is recorded unconditionally), so every per-method
history of the catalog is improving at every adjacent index — both after
any single `processPick` call on an invariant-satisfying state and after
any sequence of fed picks starting from the initial (empty) catalog. -/
theorem processPick_event_history_improving (cfg : Config) (collab : Collab) :
    (∀ st pick st', EventListInvariant st.event_list →
      processPick cfg collab st pick = .ok st' →
      EventListInvariant st'.event_list) ∧
    (∀ ps st, feedPicks cfg collab initialState ps = .ok st →
      EventListInvariant st.event_list) := by
  constructor
  · intro st pick st' hinv h
    exact processPick_invariant hinv h
  · intro ps st h
    exact feedPicks_invariant (fun ev hev => absurd hev (List.not_mem_nil ev)) h

/-- Witness for C1 at a concrete state and pick. -/
theorem processPick_event_history_improving_witness :
    processPick baseConfig collabStub initialState basePick = .ok initialState ∧
    EventListInvariant initialState.event_list :=
  ⟨by rfl,
    (processPick_event_history_improving baseConfig collabStub).1 initialState
      basePick initialState (fun ev hev => absurd hev (List.not_mem_nil ev))
      (by rfl)⟩

/-- C3 (amended): the playback pipeline is a function of the input picks,
the configuration and the external collaborators alone — two playback runs
whose collaborators (association engine, locator, public-id factory,
distance routine) return the same values produce identical published
origin sequences.  All nondeterminism across real runs lives in the
collaborators; in particular the public-id factory
(`seiscomp.datamodel.Origin.Create`) mints wall-clock-based identifiers. -/
theorem runPlayback_deterministic_given_collaborators (cfg : Config)
    (cA cB : Collab) (input : List Pick)
    (hassoc : cA.associate = cB.associate) (hreloc : cA.reloc = cB.reloc)
    (hmint : cA.mint = cB.mint) (hdist : cA.distKm = cB.distKm) :
    runPlayback cfg cA input = runPlayback cfg cB input := by
  have hc : cA = cB := by
    obtain ⟨a1, r1, m1, d1⟩ := cA
    obtain ⟨a2, r2, m2, d2⟩ := cB
    dsimp only at hassoc hreloc hmint hdist
    rw [hassoc, hreloc, hmint, hdist]
  rw [hc]

/-- Witness for C3's amended theorem. -/
theorem runPlayback_deterministic_given_collaborators_witness :
    runPlayback baseConfig collabStub [basePick] =
      runPlayback baseConfig collabStub [basePick] :=
  runPlayback_deterministic_given_collaborators baseConfig collabStub collabStub
    [basePick] rfl rfl rfl rfl

/-- A playback configuration that lets a single pick trigger an origin:
minimum pick count 1, no delay, raw PyOcto locations kept, whitelist and
sensor list accepting `basePick`. -/
def playbackConfig : Config :=
  { pick_delay := 0, min_num_p_picks := 1, want_raw_pyocto_locations := true,
    pick_authors := ["scautopick"], whitelist := some (fun _ => true),
    stream_nsl := [("N", "S", "")], accepted_authors := ["scautopick"],
    use_pick_time := false }

/-- The origin the stubbed association engine nucleates from the fed
pick. -/
def assocOrigin : Origin :=
  { publicID := "Origin/PyOcto/000000001", methodID := "PyOcto",
    pickIDs := ["pick1"], time := 0, depth := 10 }

/-- Public-id factory of the first run (`Origin.Create` at one wall-clock
time). -/
def mintA : Nat → String × Nat := fun n => ("Origin/20240101.000000.1", n + 1)

/-- Public-id factory of the second run (`Origin.Create` at a different
wall-clock time). -/
def mintB : Nat → String × Nat := fun n => ("Origin/20240102.000000.7", n + 1)

/-- Collaborators of the first run: one nucleated origin, failing locator. -/
def collabMintA : Collab :=
  { associate := fun _ => [assocOrigin], reloc := fun _ _ => none,
    mint := mintA, distKm := fun _ _ => 0 }

/-- The same collaborators except for the public-id factory. -/
def collabMintB : Collab := { collabMintA with mint := mintB }

/-- The origin published by the first run. -/
def publishedA : Origin :=
  { assocOrigin with
    publicID := "Origin/PyOcto/20240101.000000.1"
    creationTime := some 0 }

/-- The origin published by the second run. -/
def publishedB : Origin :=
  { assocOrigin with
    publicID := "Origin/PyOcto/20240102.000000.7"
    creationTime := some 0 }

/-- Counterexample for C3 as claimed: two playback runs on the same input
pick set, delay and configuration, differing only in the behaviour of the
wall-clock-based public-id factory (`Origin.Create`), publish origins with
different identifiers — the published sequences are not determined by the
input, delay and configuration. -/
theorem runPlayback_mint_dependent :
    collabMintA.associate = collabMintB.associate ∧
    collabMintA.reloc = collabMintB.reloc ∧
    collabMintA.distKm = collabMintB.distKm ∧
    runPlayback playbackConfig collabMintA [basePick] = .ok [publishedA] ∧
    runPlayback playbackConfig collabMintB [basePick] = .ok [publishedB] ∧
    publishedA.publicID ≠ publishedB.publicID :=
  ⟨rfl, rfl, rfl, by rfl, by rfl, by decide⟩
